import Mathlib

/-!
Shallow embedding of the keyword-intelligence core of the amazon-ppc-tool
repository (app/services/ai_bidding.py, app/services/scraper.py and the
BulkAnalysisRequest model of app/models/schemas.py), together with theorems
settling the frozen claims about it.

Modelling conventions:
- Python floats are modelled as exact rationals; round(x, n) is modelled as
  round-half-to-even at n decimal digits (the Python builtin), int(x) as
  truncation toward zero.
- Python strings are Lean strings; s.lower() is a character-wise lowering,
  s.strip() drops whitespace from both ends, and len(s.split()) is the
  number of maximal non-whitespace runs.
- abs(hash(s)) is a per-process quantity: it is modelled as an oracle
  of type String to Nat carried in an environment, together with the
  current zero-indexed month and the draws of the random module used for
  the simulated ABA fields.
-/

/-- Whitespace test used by the models of str.strip and str.split. -/
def isWS (c : Char) : Bool := c.isWhitespace

/-- Model of str.lower: character-wise lowering. -/
def pyLower (s : String) : String := String.mk (s.data.map Char.toLower)

/-- Both-ends whitespace trimming on character lists. -/
def stripChars (l : List Char) : List Char :=
  ((l.dropWhile isWS).reverse.dropWhile isWS).reverse

/-- Model of str.strip with no argument. -/
def pyStrip (s : String) : String := String.mk (stripChars s.data)

/-- Word-count helper: counts maximal runs of non-whitespace characters.
The boolean argument records whether the previous character was inside a
word. -/
def wcGo : Bool → List Char → Nat
  | _, [] => 0
  | inWord, c :: rest =>
    if isWS c then wcGo false rest
    else (if inWord then 0 else 1) + wcGo true rest

/-- Model of len(s.split()): the number of whitespace-separated words. -/
def wordCount (s : String) : Nat := wcGo false s.data

/-- Contiguous-substring test on character lists. -/
def infixHit (needle : List Char) (hay : List Char) : Bool :=
  match hay with
  | [] => needle.isEmpty
  | _ :: t => needle.isPrefixOf hay || infixHit needle t

/-- Model of the Python membership test: any(w in hay for w in words),
where the inner test is substring containment. -/
def containsAny (hay : String) (words : List String) : Bool :=
  words.any (fun w => infixHit w.data hay.data)

/-- Python max(a, b) on rationals, written with an explicit comparison so
that concrete values reduce inside the kernel. -/
def qMax (a b : ℚ) : ℚ := if a < b then b else a

/-- Python min(a, b) on rationals. -/
def qMin (a b : ℚ) : ℚ := if b < a then b else a

/-- Python max(a, b) on integers. -/
def zMax (a b : ℤ) : ℤ := if a < b then b else a

/-- Python min(a, b) on integers. -/
def zMin (a b : ℤ) : ℤ := if b < a then b else a

/-- Round-half-to-even to an integer, the rounding of the Python round
builtin. -/
def rhe (q : ℚ) : ℤ :=
  if q - (Rat.floor q : ℚ) < 1/2 then Rat.floor q
  else if 1/2 < q - (Rat.floor q : ℚ) then Rat.floor q + 1
  else if Rat.floor q % 2 = 0 then Rat.floor q else Rat.floor q + 1

/-- Model of round(x, 2). -/
def round2 (q : ℚ) : ℚ := (rhe (q * 100) : ℚ) / 100

/-- Model of round(x, 1). -/
def round1 (q : ℚ) : ℚ := (rhe (q * 10) : ℚ) / 10

/-- Model of round(x, 0), which in Python returns a float. -/
def round0 (q : ℚ) : ℚ := (rhe q : ℚ)

/-- Model of int(x): truncation toward zero. -/
def truncInt (q : ℚ) : ℤ := if 0 ≤ q then Rat.floor q else -Rat.floor (-q)

/-! ## ai_bidding.py: EnhancedAIBiddingPredictor

Constant tables and word lists, transcribed from the constructor of
EnhancedAIBiddingPredictor. -/

/-- High-intent words of ai_bidding.py. -/
def highIntentWords : List String :=
  ["buy", "price", "cost", "cheap", "best", "top", "deal", "discount", "offer"]

/-- Brand-indicator words of ai_bidding.py. -/
def brandIndicators : List String :=
  ["brand", "original", "genuine", "authentic"]

/-- The fixed category set. -/
inductive Category
  | electronics
  | fashion
  | books
  | home_kitchen
  | health
  | beauty
  | sports
  | default
deriving DecidableEq, Repr

/-- Model of categorize_keyword: first-match-wins substring rules over the
lowercased keyword. -/
def categorize_keyword (keyword : String) : Category :=
  let kl := pyLower keyword
  if containsAny kl ["phone", "mobile", "laptop", "tablet", "headphone", "speaker", "camera"] then
    Category.electronics
  else if containsAny kl ["shirt", "dress", "saree", "jeans", "shoes", "bag"] then
    Category.fashion
  else if containsAny kl ["book", "novel", "guide", "manual"] then
    Category.books
  else if containsAny kl ["kitchen", "home", "furniture", "decor"] then
    Category.home_kitchen
  else if containsAny kl ["vitamin", "supplement", "medicine", "health"] then
    Category.health
  else if containsAny kl ["cream", "lotion", "makeup", "beauty", "skin"] then
    Category.beauty
  else if containsAny kl ["sports", "fitness", "gym", "exercise"] then
    Category.sports
  else
    Category.default

/-- category_base_cpc minimum, per category. -/
def cpcMin : Category → ℚ
  | Category.electronics => 8
  | Category.fashion => 5
  | Category.books => 3
  | Category.home_kitchen => 6
  | Category.health => 10
  | Category.beauty => 8
  | Category.sports => 7
  | Category.default => 5

/-- category_base_cpc maximum, per category. -/
def cpcMax : Category → ℚ
  | Category.electronics => 25
  | Category.fashion => 15
  | Category.books => 12
  | Category.home_kitchen => 18
  | Category.health => 30
  | Category.beauty => 22
  | Category.sports => 20
  | Category.default => 18

/-- category_volume_multipliers base, per category. -/
def volBase : Category → ℚ
  | Category.electronics => 8000
  | Category.fashion => 6000
  | Category.books => 3000
  | Category.home_kitchen => 5000
  | Category.health => 7000
  | Category.beauty => 6500
  | Category.sports => 4500
  | Category.default => 4000

/-- category_volume_multipliers multiplier, per category. -/
def volMult : Category → ℚ
  | Category.electronics => 2.5
  | Category.fashion => 2.0
  | Category.books => 1.2
  | Category.home_kitchen => 1.8
  | Category.health => 2.2
  | Category.beauty => 2.1
  | Category.sports => 1.6
  | Category.default => 1.5

/-- seasonal_trends with the dict .get fallback to the flat default curve:
only electronics, fashion and health have their own curves. -/
def seasonalPattern : Category → List ℚ
  | Category.electronics => [5, 10, 15, 20, 25, 30, 35, 40, 45, 35, 25, 15]
  | Category.fashion => [20, 25, 30, 35, 40, 30, 20, 15, 25, 35, 40, 45]
  | Category.health => [40, 35, 30, 25, 20, 15, 20, 25, 30, 35, 40, 45]
  | _ => [25, 25, 25, 25, 25, 25, 25, 25, 25, 25, 25, 25]

/-- Curve value for a zero-indexed month; every curve has 12 entries, so the
fallback value of getD is never used. -/
def seasonalAt (c : Category) (m : Nat) : ℚ := (seasonalPattern c).getD m 0

/-- Nondeterministic inputs of one scoring call: the per-process
abs(hash(s)) oracle, the zero-indexed current month, the two
random.uniform draws and the random.randint draw used for the simulated
ABA fields. -/
structure Env where
  hash : String → ℕ
  month : Fin 12
  u_click : ℚ
  u_conv : ℚ
  r_rank : ℤ

/-- Model of calculate_magnet_iq_score. -/
def calculate_magnet_iq_score (keyword : String) (search_volume : ℤ) (competition_score : ℚ) : ℤ :=
  let volume_score := qMin 40 ((search_volume : ℚ) / 500)
  let competition_penalty := competition_score * 30
  let intent_bonus : ℚ := if containsAny (pyLower keyword) highIntentWords then 20 else 0
  let length_bonus : ℚ := qMax 0 (15 - (wordCount keyword : ℚ) * 2)
  zMax 1 (zMin 100 (truncInt (volume_score - competition_penalty + intent_bonus + length_bonus)))

/-- The trend_data dictionary of calculate_search_volume_trend. -/
structure TrendData where
  trend_percentage : ℚ
  trend_direction : String
  seasonal_factor : ℚ
deriving DecidableEq, Repr

/-- Model of calculate_search_volume_trend; month is the zero-indexed
current calendar month and h is the abs-hash oracle. -/
def calculate_search_volume_trend (h : String → ℕ) (month : Fin 12) (keyword : String) (category : Category) : TrendData :=
  let current_trend := seasonalAt category month.val
  let previous_trend := seasonalAt category ((month.val + 11) % 12)
  let keyword_hash : ℤ := (h keyword % 20 : ℕ) - 10
  let trend_change := (current_trend - previous_trend) / previous_trend * 100 + (keyword_hash : ℚ)
  { trend_percentage := round0 trend_change
  , trend_direction := if 0 < trend_change then "up" else if trend_change < 0 then "down" else "stable"
  , seasonal_factor := current_trend / 25 }

/-- Output of estimate_enhanced_search_volume; the volume_factors dict is
not materialized because predict_optimal_bid_enhanced does not put it in
its result. -/
structure VolumeData where
  search_volume : ℤ
  trend_data : TrendData
deriving DecidableEq, Repr

/-- Model of estimate_enhanced_search_volume. -/
def estimate_enhanced_search_volume (h : String → ℕ) (month : Fin 12) (keyword : String) (category : Category) : VolumeData :=
  let base_volume := volBase category
  let multiplier := volMult category
  let length_factor := qMax 0.3 (1 - ((wordCount keyword : ℚ) - 2) * 0.15)
  let brand_factor : ℚ := if containsAny (pyLower keyword) brandIndicators then 0.7 else 1.0
  let intent_factor : ℚ := if containsAny (pyLower keyword) highIntentWords then 1.3 else 1.0
  let estimated_volume := truncInt (base_volume * multiplier * length_factor * brand_factor * intent_factor)
  let keyword_variation : ℤ := (h keyword % 5000 : ℕ)
  { search_volume := estimated_volume + keyword_variation
  , trend_data := calculate_search_volume_trend h month keyword category }

/-- The competition dictionary of calculate_competition_analysis; the
competition_factors sub-dict is flattened into the four factor fields. -/
structure CompetitionData where
  length : ℚ
  generic : ℚ
  brand : ℚ
  intent : ℚ
  competition_score : ℚ
  competition_level : String
  organic_competitors : ℤ
  sponsored_competitors : ℤ
deriving DecidableEq, Repr

/-- Model of calculate_competition_analysis; h is abs(hash(keyword)) and
hAds is abs(hash(keyword + "ads")). -/
def calculate_competition_analysis (h hAds : ℕ) (keyword : String) : CompetitionData :=
  let wc := wordCount keyword
  let kl := pyLower keyword
  let lengthF := qMax 0 (1 - ((wc : ℚ) - 2) * 0.1)
  let genericF : ℚ := if wc ≤ 2 then 0.8 else 0.4
  let brandF : ℚ := if containsAny kl brandIndicators then 0.6 else 0.3
  let intentF : ℚ := if containsAny kl highIntentWords then 0.7 else 0.4
  let competition_score := qMin 1.0 ((lengthF + genericF + brandF + intentF) / 4)
  { length := lengthF
  , generic := genericF
  , brand := brandF
  , intent := intentF
  , competition_score := competition_score
  , competition_level :=
      if competition_score < 0.4 then "low"
      else if competition_score < 0.7 then "medium"
      else "high"
  , organic_competitors := truncInt (competition_score * 50 + (h % 30 : ℕ))
  , sponsored_competitors := truncInt (competition_score * 20 + (hAds % 15 : ℕ)) }

/-- The suggested_bids dictionary. -/
structure SuggestedBids where
  conservative : ℚ
  optimal : ℚ
  aggressive : ℚ
deriving DecidableEq, Repr

/-- Title-cased category label, the value of
category.replace(underscore, space).title() on each member of the fixed
category set. -/
def categoryTitle : Category → String
  | Category.electronics => "Electronics"
  | Category.fashion => "Fashion"
  | Category.books => "Books"
  | Category.home_kitchen => "Home Kitchen"
  | Category.health => "Health"
  | Category.beauty => "Beauty"
  | Category.sports => "Sports"
  | Category.default => "Default"

/-- Model of _generate_enhanced_reasoning; the cpc argument is unused in
the source as well. -/
def generate_enhanced_reasoning (keyword : String) (category : Category) (competition : ℚ) (cpc : ℚ) (magnet_iq : ℤ) : String :=
  let r1 : List String :=
    if 70 < magnet_iq then ["High-opportunity keyword"]
    else if magnet_iq < 30 then ["Low-opportunity keyword"] else []
  let r2 : List String :=
    if (0.7 : ℚ) < competition then ["High competition market"]
    else if competition < 0.4 then ["Low competition opportunity"] else []
  let r3 : List String := if 3 < wordCount keyword then ["Long-tail advantage"] else []
  let r4 : List String :=
    if containsAny (pyLower keyword) highIntentWords then ["High purchase intent"] else []
  let _ := cpc
  String.intercalate (" | ") (r1 ++ r2 ++ r3 ++ r4 ++ [categoryTitle category ++ (" category analysis")])

/-- Volume data of one scoring call, with the category fixed by
categorize_keyword. -/
def volume_data_of (env : Env) (keyword : String) : VolumeData :=
  estimate_enhanced_search_volume env.hash env.month keyword (categorize_keyword keyword)

/-- Competition data of one scoring call. -/
def competition_data_of (env : Env) (keyword : String) : CompetitionData :=
  calculate_competition_analysis (env.hash keyword) (env.hash (keyword ++ ("ads"))) keyword

/-- The base CPC after the competition interpolation, the volume adjustment
and the trend adjustment of predict_optimal_bid_enhanced. -/
def base_cpc_of (env : Env) (keyword : String) : ℚ :=
  let category := categorize_keyword keyword
  let competition_score := (competition_data_of env keyword).competition_score
  let c0 := cpcMin category + (cpcMax category - cpcMin category) * competition_score
  let volume_multiplier := 1 + qMin 0.3 (((volume_data_of env keyword).search_volume : ℚ) / 10000 * 0.1)
  let trend_multiplier := 1 + ((volume_data_of env keyword).trend_data.seasonal_factor - 1) * 0.1
  c0 * volume_multiplier * trend_multiplier

/-- estimated_cpc of one scoring call. -/
def estimated_cpc_of (env : Env) (keyword : String) : ℚ := round2 (base_cpc_of env keyword)

/-- The dictionary returned by predict_optimal_bid_enhanced, with the
trend_data sub-dict flattened into three fields. -/
structure ScoreRecord where
  keyword : String
  category : Category
  search_volume : ℤ
  estimated_cpc : ℚ
  suggested_bids : SuggestedBids
  magnet_iq_score : ℤ
  competition_data : CompetitionData
  trend_percentage : ℚ
  trend_direction : String
  seasonal_factor : ℚ
  aba_click_share : ℚ
  aba_conversion_share : ℚ
  sponsored_rank : ℤ
  confidence : ℚ
  reasoning : String
  market : String
  currency : String
deriving DecidableEq, Repr

/-- Model of predict_optimal_bid_enhanced. The env argument carries the
process-level nondeterminism: the abs-hash oracle, the current month, and
the random draws backing the simulated ABA data. -/
def predict_optimal_bid_enhanced (env : Env) (keyword : String) : ScoreRecord :=
  let category := categorize_keyword keyword
  let volume_data := volume_data_of env keyword
  let search_volume := volume_data.search_volume
  let competition_data := competition_data_of env keyword
  let competition_score := competition_data.competition_score
  let magnet_iq := calculate_magnet_iq_score keyword search_volume competition_score
  let estimated_cpc := estimated_cpc_of env keyword
  { keyword := keyword
  , category := category
  , search_volume := search_volume
  , estimated_cpc := estimated_cpc
  , suggested_bids :=
      { conservative := round2 (estimated_cpc * 0.8)
      , optimal := round2 (estimated_cpc * 1.1)
      , aggressive := round2 (estimated_cpc * 1.4) }
  , magnet_iq_score := magnet_iq
  , competition_data := competition_data
  , trend_percentage := volume_data.trend_data.trend_percentage
  , trend_direction := volume_data.trend_data.trend_direction
  , seasonal_factor := volume_data.trend_data.seasonal_factor
  , aba_click_share := round2 env.u_click
  , aba_conversion_share := round2 env.u_conv
  , sponsored_rank := env.r_rank
  , confidence := round2 ((0.85 : ℚ) - competition_score * 0.2)
  , reasoning := generate_enhanced_reasoning keyword category competition_score estimated_cpc magnet_iq
  , market := "India"
  , currency := "INR" }

/-! ## scraper.py: AmazonIndiaScraper -/

/-- Model of _calculate_intent_score of scraper.py, including the dead
second elif branch of the long-tail bonus (word_count at least 6 is tested
only after word_count at least 4 already matched). -/
def calculate_intent_score (keyword : String) : ℤ :=
  let kl := pyLower keyword
  let s1 : ℤ :=
    if containsAny kl ["buy", "purchase", "order", "booking", "shop", "get"] then 3
    else if containsAny kl ["price", "cost", "cheap", "deal", "offer", "discount", "sale", "rate"] then 2
    else if containsAny kl ["best", "top", "review", "compare", "vs", "good", "quality", "rating"] then 1
    else 0
  let s2 : ℤ :=
    if containsAny kl ["original", "genuine", "authentic", "brand", "official", "authorized"] then 1 else 0
  let wc := wordCount keyword
  let s3 : ℤ := if 4 ≤ wc then 1 else if 6 ≤ wc then 2 else 0
  let s4 : ℤ :=
    if containsAny kl ["india", "delhi", "mumbai", "bangalore", "online", "delivery"] then 1 else 0
  let s5 : ℤ :=
    if containsAny kl ["amazon", "flipkart", "myntra", "snapdeal"] then 2 else 0
  zMin 10 (zMax 1 (5 + s1 + s2 + s3 + s4 + s5))

/-- The per-keyword dictionary returned by get_enhanced_keyword_data and by
_get_basic_keyword_data. -/
structure KeywordDataRecord where
  keyword : String
  search_volume : ℤ
  competition : String
  competition_score : ℚ
  organic_competitors : ℤ
  sponsored_competitors : ℤ
  estimated_cpc_inr : ℚ
  suggested_bids : SuggestedBids
  magnet_iq_score : ℤ
  intent_score : ℤ
  trend_percentage : ℚ
  trend_direction : String
  seasonal_factor : ℚ
  aba_click_share : ℚ
  aba_conversion_share : ℚ
  sponsored_rank : ℤ
  category : String
  confidence : ℚ
  reasoning : String
  currency : String
  market : String
  data_source : String
deriving DecidableEq, Repr

/-- Label of a category, the string form used in the result dictionaries. -/
def categoryLabel : Category → String
  | Category.electronics => "electronics"
  | Category.fashion => "fashion"
  | Category.books => "books"
  | Category.home_kitchen => "home_kitchen"
  | Category.health => "health"
  | Category.beauty => "beauty"
  | Category.sports => "sports"
  | Category.default => "default"

/-- Model of _get_basic_keyword_data; h stands for abs(hash(keyword)). -/
def get_basic_keyword_data (h : ℕ) (keyword : String) : KeywordDataRecord :=
  { keyword := keyword
  , search_volume := (h % 8000 : ℕ) + 2000
  , competition := (["low", "medium", "high"]).getD (h % 3) ""
  , competition_score := round2 ((h % 100 : ℕ) / 100)
  , organic_competitors := (h % 40 : ℕ) + 10
  , sponsored_competitors := (h % 20 : ℕ) + 5
  , estimated_cpc_inr := round2 (8 + (h % 15 : ℕ))
  , suggested_bids :=
      { conservative := round2 (8 + (h % 15 : ℕ) * 0.8)
      , optimal := round2 (8 + (h % 15 : ℕ) * 1.1)
      , aggressive := round2 (8 + (h % 15 : ℕ) * 1.4) }
  , magnet_iq_score := (h % 80 : ℕ) + 20
  , intent_score := calculate_intent_score keyword
  , trend_percentage := ((h % 40 : ℕ) : ℚ) - 20
  , trend_direction := (["up", "stable", "down"]).getD (h % 3) ""
  , seasonal_factor := round2 (0.8 + (h % 40 : ℕ) / 100)
  , aba_click_share := round2 ((h % 500 : ℕ) / 100)
  , aba_conversion_share := round2 ((h % 400 : ℕ) / 100)
  , sponsored_rank := (h % 40 : ℕ) + 1
  , category := "default"
  , confidence := round2 (0.5 + (h % 30 : ℕ) / 100)
  , reasoning := "Fallback estimation - API unavailable"
  , currency := "INR"
  , market := "India"
  , data_source := "Fallback Algorithm" }

/-- Model of get_enhanced_keyword_data. The raised flag records whether the
enhanced prediction raised an exception; the except clause of the source
then substitutes the basic fallback data. -/
def get_enhanced_keyword_data (env : Env) (raised : Bool) (keyword : String) : KeywordDataRecord :=
  if raised then get_basic_keyword_data (env.hash keyword) keyword
  else
    let ai := predict_optimal_bid_enhanced env keyword
    { keyword := keyword
    , search_volume := ai.search_volume
    , competition := ai.competition_data.competition_level
    , competition_score := ai.competition_data.competition_score
    , organic_competitors := ai.competition_data.organic_competitors
    , sponsored_competitors := ai.competition_data.sponsored_competitors
    , estimated_cpc_inr := ai.estimated_cpc
    , suggested_bids := ai.suggested_bids
    , magnet_iq_score := ai.magnet_iq_score
    , intent_score := calculate_intent_score keyword
    , trend_percentage := ai.trend_percentage
    , trend_direction := ai.trend_direction
    , seasonal_factor := ai.seasonal_factor
    , aba_click_share := ai.aba_click_share
    , aba_conversion_share := ai.aba_conversion_share
    , sponsored_rank := ai.sponsored_rank
    , category := categoryLabel ai.category
    , confidence := ai.confidence
    , reasoning := ai.reasoning
    , currency := "INR"
    , market := "India"
    , data_source := "Enhanced AI + Amazon Data" }

/-- One gathered loop step of get_bulk_keyword_analysis: results are walked
in task-creation order (the order of the input keywords); an exception
entry is replaced by the basic fallback data for the matching keyword. -/
def bulkLoop (h : String → ℕ) : List String → List (Except Unit KeywordDataRecord) → List KeywordDataRecord
  | [], _ => []
  | _ :: _, [] => []
  | kw :: kws, r :: rs =>
    (match r with
     | Except.error _ => get_basic_keyword_data (h kw) kw
     | Except.ok rec0 => rec0) :: bulkLoop h kws rs

/-- Model of get_bulk_keyword_analysis. The results argument models the
value list of asyncio.gather with return_exceptions set: one entry per
keyword, in task order, each either a record or a raised exception. -/
def get_bulk_keyword_analysis (h : String → ℕ) (keywords : List String) (results : List (Except Unit KeywordDataRecord)) : List KeywordDataRecord :=
  if keywords.isEmpty then [] else bulkLoop h keywords results

/-- A JSON value in the keywords array of a bulk request: either a string
or something of another type. -/
inductive JVal
  | str (s : String)
  | nonstr
deriving DecidableEq, Repr

/-- String test on a JSON array element. -/
def JVal.isStr : JVal → Bool
  | JVal.str _ => true
  | JVal.nonstr => false

/-- Element-wise string decoding of the keywords array. -/
def decodeStrings : List JVal → Option (List String)
  | [] => some []
  | JVal.str s :: rest => (decodeStrings rest).map (fun ss => s :: ss)
  | JVal.nonstr :: _ => none

/-- Model of the BulkAnalysisRequest validation of schemas.py: the field
keywords is declared list of str with min_items 1 and max_items 100; no
other constraint is declared. -/
def validateBulkRequest (items : List JVal) : Except String (List String) :=
  match decodeStrings items with
  | none => Except.error "type_error"
  | some ss =>
    if ss.length < 1 then Except.error "min_items"
    else if 100 < ss.length then Except.error "max_items"
    else Except.ok ss

/-- The bulk analysis operation: request validation followed by
get_bulk_keyword_analysis on the validated keywords. A validation error is
returned before any scoring result is consumed. -/
def bulkAnalyzeOp (h : String → ℕ) (items : List JVal) (results : List (Except Unit KeywordDataRecord)) : Except String (List KeywordDataRecord) :=
  match validateBulkRequest items with
  | Except.error e => Except.error e
  | Except.ok keywords => Except.ok (get_bulk_keyword_analysis h keywords results)

/-! ## scraper.py: suggestion expansion -/

/-- The dedup-and-filter loop at the end of get_keyword_suggestions: keep a
suggestion when its stripped lowercase form is nonempty, unseen and longer
than 2 characters; the kept entry is the stripped original. -/
def dedupeKeep : List String → List String → List String
  | [], _ => []
  | s :: rest, seen =>
    let clean := pyLower (pyStrip s)
    if clean ≠ "" ∧ clean ∉ seen ∧ 2 < clean.length then
      pyStrip s :: dedupeKeep rest (clean :: seen)
    else dedupeKeep rest seen

/-- The suggestion list assembled by get_keyword_suggestions before
deduplication: the autocomplete results, extended with generated
variations only when fewer than limit suggestions exist so far. -/
def collectSuggestions (amazon expanded : List String) (limit : ℕ) : List String :=
  amazon ++ (if amazon.length < limit then expanded else [])

/-- Model of get_keyword_suggestions. The amazon argument is the list
returned by _get_amazon_autocomplete; expanded abstracts the output of
_generate_expanded_suggestions, whose random.shuffle makes it a
nondeterministic oracle. -/
def get_keyword_suggestions (amazon expanded : List String) (limit : ℕ) : List String :=
  (dedupeKeep (collectSuggestions amazon expanded limit) []).take limit

/-- One suggestion object of the autocomplete payload; value is its value
entry when the key is present. -/
structure AmzSuggestion where
  value : Option String
deriving DecidableEq, Repr

/-- A parsed autocomplete payload; suggestions is the suggestions array
when the key is present. -/
structure AmzPayload where
  suggestions : Option (List AmzSuggestion)
deriving DecidableEq, Repr

/-- The outcome of the external autocomplete fetch: an HTTP response whose
JSON body parsed or failed to parse, a network-level error (including
timeouts), or any other exception inside the fetch. -/
inductive FetchOutcome
  | response (status : ℕ) (body : Except Unit AmzPayload)
  | clientError
  | otherFailure
deriving Repr

/-- Every outcome other than a status-200 response with a parsable body. -/
def FetchOutcome.isFailure : FetchOutcome → Bool
  | FetchOutcome.response s (Except.ok _) => s != 200
  | FetchOutcome.response _ (Except.error _) => true
  | FetchOutcome.clientError => true
  | FetchOutcome.otherFailure => true

/-- The extraction loop over the suggestions array: keep each present,
stripped, nonempty value not already kept. -/
def extractValues : List AmzSuggestion → List String → List String
  | [], acc => acc
  | it :: rest, acc =>
    match it.value with
    | some v =>
      let keyword := pyStrip v
      if keyword ≠ "" ∧ keyword ∉ acc then extractValues rest (acc ++ [keyword])
      else extractValues rest acc
    | none => extractValues rest acc

/-- Model of _get_amazon_autocomplete: extraction on a parsed status-200
response, the empty list in every other case (every exception inside the
fetch is caught and absorbed). -/
def get_amazon_autocomplete (r : FetchOutcome) : List String :=
  match r with
  | FetchOutcome.response status (Except.ok payload) =>
    if status = 200 then
      (match payload.suggestions with
       | some items => extractValues items []
       | none => [])
    else []
  | _ => []

/-- The suggestion expansion operation wired to a fetch outcome. Totality
of this function is the embedding of the guarantee that no fetch failure
escapes get_keyword_suggestions as an exception. -/
def get_keyword_suggestions_op (r : FetchOutcome) (expanded : List String) (limit : ℕ) : List String :=
  get_keyword_suggestions (get_amazon_autocomplete r) expanded limit

/-! ## scraper.py: competitor analysis -/

/-- The analysis_summary value: the no-competitors message string of the
early return, or the statistics dictionary. -/
inductive AnalysisSummary
  | message (text : String)
  | stats (total_search_volume : ℤ) (average_cpc : ℚ) (average_magnet_iq : ℚ)
      (average_competition : ℚ) (top_opportunity : Option KeywordDataRecord)
      (high_opportunity_count : ℕ) (low_competition_keywords : ℕ) (high_volume_keywords : ℕ)
deriving DecidableEq, Repr

/-- The competitor-analysis report dictionary; the early return carries no
currency and no timestamp key, modelled with none. -/
structure CompetitorReport where
  primary_keyword : String
  competitor_keywords : List KeywordDataRecord
  total_found : ℕ
  analysis_summary : AnalysisSummary
  market : String
  currency : Option String
  timestamp : Option ℚ
deriving DecidableEq, Repr

/-- Stable sort by magnet score descending, the list.sort call with key
magnet_iq_score and reverse set. -/
def sortByMagnetDesc (data : List KeywordDataRecord) : List KeywordDataRecord :=
  List.mergeSort data (fun a b => b.magnet_iq_score ≤ a.magnet_iq_score)

/-- The summary statistics block of get_competitor_analysis. -/
def competitorSummary (data : List KeywordDataRecord) : AnalysisSummary :=
  if data.isEmpty then
    AnalysisSummary.stats 0 0 0 0 none 0 0 0
  else
    AnalysisSummary.stats
      ((data.map (fun r => r.search_volume)).sum)
      (round2 ((data.map (fun r => r.estimated_cpc_inr)).sum / data.length))
      (round1 ((data.map (fun r => (r.magnet_iq_score : ℚ))).sum / data.length))
      (round2 ((data.map (fun r => r.competition_score)).sum / data.length))
      data.head?
      ((data.filter (fun r => decide (70 < r.magnet_iq_score ∧ r.competition_score < 0.6))).length)
      ((data.filter (fun r => r.competition == "low")).length)
      ((data.filter (fun r => decide (5000 < r.search_volume))).length)

/-- Model of get_competitor_analysis. The related argument is the
expansion result; bulk abstracts get_bulk_keyword_analysis on it; ts is
the event-loop timestamp. -/
def get_competitor_analysis (bulk : List String → List KeywordDataRecord) (ts : ℚ) (primary : String) (related : List String) : CompetitorReport :=
  if related.isEmpty then
    { primary_keyword := primary
    , competitor_keywords := []
    , total_found := 0
    , analysis_summary := AnalysisSummary.message ("No competitor keywords found")
    , market := "India"
    , currency := none
    , timestamp := none }
  else
    let competitor_data := sortByMagnetDesc (bulk related)
    { primary_keyword := primary
    , competitor_keywords := competitor_data
    , total_found := competitor_data.length
    , analysis_summary := competitorSummary competitor_data
    , market := "India"
    , currency := some ("INR")
    , timestamp := some ts }

/-! ## Definitions used only by theorem statements -/

/-- Spec-side restatement of the magnet formula, written from the words of
claim C5: min(40, v/500) minus c times 30, plus 20 when a high-intent word
is present, plus max(0, 15 minus word_count times 2), converted to an
integer and clamped to the interval from 1 to 100. -/
def magnetScoreSpec (keyword : String) (v : ℤ) (c : ℚ) : ℤ :=
  zMax 1 (zMin 100 (truncInt (qMin 40 ((v : ℚ) / 500) - c * 30
    + (if containsAny (pyLower keyword) highIntentWords then 20 else 0)
    + qMax 0 (15 - (wordCount keyword : ℚ) * 2))))

/-- Placeholder record, used only as the default value of list indexing
inside theorem statements. -/
def dummyRec : KeywordDataRecord := get_basic_keyword_data 0 ("")

/-- A concrete abs-hash oracle for witness instantiations. -/
def h0 : String → ℕ := fun s => s.length

/-- The concrete bulk request of the blank-element scenario. -/
def blankItems : List JVal := [JVal.str ("phone"), JVal.str (""), JVal.str ("laptop")]

/-- Concrete gather outcomes for the blank-element scenario: every scoring
task raised, so every slot takes the fallback record. -/
def errResults : List (Except Unit KeywordDataRecord) :=
  [Except.error (), Except.error (), Except.error ()]

/-- A concrete abs-hash oracle shared by the two environments of the
determinism counterexample. -/
def zeroHash : String → ℕ := fun _ => 0

/-- First call environment: same hash oracle and month as envB, ABA click
draw 1. Both draws lie inside the random.uniform bounds of the source. -/
def envA : Env :=
  { hash := zeroHash, month := ⟨0, by omega⟩, u_click := 1, u_conv := 1, r_rank := 1 }

/-- Second call environment: identical to envA except that the ABA click
draw is 2. -/
def envB : Env :=
  { hash := zeroHash, month := ⟨0, by omega⟩, u_click := 2, u_conv := 1, r_rank := 1 }

/-! ## Properties of the rounding and clamping helpers -/

theorem qMax_eq_max (a b : ℚ) : qMax a b = max a b := by
  unfold qMax
  rw [max_def]
  split_ifs <;> first | rfl | linarith
theorem qMin_eq_min (a b : ℚ) : qMin a b = min a b := by
  unfold qMin
  rw [min_def]
  split_ifs <;> first | rfl | linarith
theorem zMax_eq_max (a b : ℤ) : zMax a b = max a b := by
  unfold zMax
  rw [max_def]
  split_ifs <;> first | rfl | omega
theorem zMin_eq_min (a b : ℤ) : zMin a b = min a b := by
  unfold zMin
  rw [min_def]
  split_ifs <;> first | rfl | omega
theorem ratFloor_eq (q : ℚ) : Rat.floor q = ⌊q⌋ := by
  rw [Rat.floor_def', Rat.floor_def]
theorem rhe_eq (q : ℚ) : rhe q =
    if q - (⌊q⌋ : ℚ) < 1/2 then ⌊q⌋
    else if 1/2 < q - (⌊q⌋ : ℚ) then ⌊q⌋ + 1
    else if ⌊q⌋ % 2 = 0 then ⌊q⌋ else ⌊q⌋ + 1 := by
  unfold rhe
  rw [ratFloor_eq]
theorem truncInt_eq (q : ℚ) : truncInt q = if 0 ≤ q then ⌊q⌋ else ⌈q⌉ := by
  unfold truncInt
  rw [ratFloor_eq, ratFloor_eq, Int.floor_neg, neg_neg]
theorem rhe_ge_floor (q : ℚ) : ⌊q⌋ ≤ rhe q := by
  rw [rhe_eq]
  split_ifs <;> omega
theorem rhe_le_floor_succ (q : ℚ) : rhe q ≤ ⌊q⌋ + 1 := by
  rw [rhe_eq]
  split_ifs <;> omega
theorem rhe_mono {a b : ℚ} (h : a ≤ b) : rhe a ≤ rhe b := by
  rcases lt_or_eq_of_le (Int.floor_le_floor h) with hf | hf
  · calc rhe a ≤ ⌊a⌋ + 1 := rhe_le_floor_succ a
      _ ≤ ⌊b⌋ := by omega
      _ ≤ rhe b := rhe_ge_floor b
  · rw [rhe_eq, rhe_eq, ← hf]
    have hr : a - (⌊a⌋ : ℚ) ≤ b - (⌊a⌋ : ℚ) := by linarith
    split_ifs <;> first | omega | linarith
theorem rhe_nonneg {q : ℚ} (h : 0 ≤ q) : 0 ≤ rhe q := by
  have h1 : (0 : ℤ) ≤ ⌊q⌋ := Int.floor_nonneg.mpr h
  have h2 := rhe_ge_floor q
  omega
theorem round2_mono {a b : ℚ} (h : a ≤ b) : round2 a ≤ round2 b := by
  unfold round2
  have : rhe (a * 100) ≤ rhe (b * 100) := rhe_mono (by linarith)
  have hc : ((rhe (a * 100) : ℚ)) ≤ ((rhe (b * 100) : ℚ)) := by exact_mod_cast this
  linarith
theorem round2_nonneg {q : ℚ} (h : 0 ≤ q) : 0 ≤ round2 q := by
  unfold round2
  have : (0 : ℤ) ≤ rhe (q * 100) := rhe_nonneg (by linarith)
  have hc : (0 : ℚ) ≤ (rhe (q * 100) : ℚ) := by exact_mod_cast this
  linarith
theorem truncInt_nonneg {q : ℚ} (h : 0 ≤ q) : 0 ≤ truncInt q := by
  rw [truncInt_eq, if_pos h]
  exact Int.floor_nonneg.mpr h

/-! ## Generic lemmas -/

theorem zClamp100_bounds (s : ℤ) : 1 ≤ zMax 1 (zMin 100 s) ∧ zMax 1 (zMin 100 s) ≤ 100 := by
  unfold zMax zMin
  split_ifs <;> omega

theorem zClamp10_bounds (s : ℤ) : 1 ≤ zMin 10 (zMax 1 s) ∧ zMin 10 (zMax 1 s) ≤ 10 := by
  unfold zMax zMin
  split_ifs <;> omega

/-! ## Claim theorems -/

/-- C5: for every keyword, search volume v and competition score c, the
magnet score equals min(40, v/500) minus c times 30, plus 20 for a
high-intent word, plus max(0, 15 minus word count times 2), converted to
an integer and clamped to the interval from 1 to 100; in particular the
magnet score of every scored keyword lies in that interval. -/
theorem claim_C5 :
    (∀ (keyword : String) (v : ℤ) (c : ℚ),
        calculate_magnet_iq_score keyword v c = magnetScoreSpec keyword v c
        ∧ 1 ≤ calculate_magnet_iq_score keyword v c
        ∧ calculate_magnet_iq_score keyword v c ≤ 100)
    ∧ (∀ (env : Env) (keyword : String),
        1 ≤ (predict_optimal_bid_enhanced env keyword).magnet_iq_score
        ∧ (predict_optimal_bid_enhanced env keyword).magnet_iq_score ≤ 100) := by
  have hb : ∀ (keyword : String) (v : ℤ) (c : ℚ),
      1 ≤ calculate_magnet_iq_score keyword v c ∧ calculate_magnet_iq_score keyword v c ≤ 100 :=
    fun keyword v c => zClamp100_bounds _
  exact ⟨fun keyword v c => ⟨rfl, hb keyword v c⟩, fun env keyword => hb _ _ _⟩

/-- C10: for every keyword string, the intent score is an integer in the
interval from 1 to 10, and it is the intent_score field of both the fully
scored record and the fallback record. -/
theorem claim_C10 : ∀ (keyword : String),
    (1 ≤ calculate_intent_score keyword ∧ calculate_intent_score keyword ≤ 10)
    ∧ (∀ (h : ℕ), (get_basic_keyword_data h keyword).intent_score = calculate_intent_score keyword)
    ∧ (∀ (env : Env) (raised : Bool),
        (get_enhanced_keyword_data env raised keyword).intent_score = calculate_intent_score keyword) := by
  intro keyword
  refine ⟨zClamp10_bounds _, fun h => rfl, fun env raised => ?_⟩
  cases raised
  · rfl
  · rfl

/-- C9: for every primary keyword, when the suggestion expansion result is
empty, the competitor analysis returns a report with total_found zero, an
empty competitor list and the no-competitors summary message, without
raising. -/
theorem claim_C9 : ∀ (bulk : List String → List KeywordDataRecord) (ts : ℚ) (primary : String),
    (get_competitor_analysis bulk ts primary []).total_found = 0
    ∧ (get_competitor_analysis bulk ts primary []).competitor_keywords = []
    ∧ (get_competitor_analysis bulk ts primary []).analysis_summary
        = AnalysisSummary.message ("No competitor keywords found") :=
  fun bulk ts primary => ⟨rfl, rfl, rfl⟩

theorem qMin_one_le_one (x : ℚ) : qMin 1.0 x ≤ 1 := by
  unfold qMin
  split_ifs with h
  · norm_num at h
    linarith
  · norm_num

theorem qMin_one_nonneg {x : ℚ} (hx : 0 ≤ x) : 0 ≤ qMin 1.0 x := by
  unfold qMin
  split_ifs with h
  · exact hx
  · norm_num

theorem comp_cs_nonneg (h ha : ℕ) (keyword : String) :
    0 ≤ (calculate_competition_analysis h ha keyword).competition_score := by
  simp only [calculate_competition_analysis]
  apply qMin_one_nonneg
  apply div_nonneg _ (by norm_num)
  have h1 : (0:ℚ) ≤ qMax 0 (1 - ((wordCount keyword : ℚ) - 2) * 0.1) := by
    rw [qMax_eq_max]
    exact le_max_left _ _
  split_ifs <;> linarith

theorem comp_cs_le_one (h ha : ℕ) (keyword : String) :
    (calculate_competition_analysis h ha keyword).competition_score ≤ 1 := by
  simp only [calculate_competition_analysis]
  exact qMin_one_le_one _

theorem cpcMin_nonneg (c : Category) : 0 ≤ cpcMin c := by
  cases c <;> norm_num [cpcMin]

theorem cpcMin_le_cpcMax (c : Category) : cpcMin c ≤ cpcMax c := by
  cases c <;> norm_num [cpcMin, cpcMax]

theorem volBase_nonneg (c : Category) : 0 ≤ volBase c := by
  cases c <;> norm_num [volBase]

theorem volMult_nonneg (c : Category) : 0 ≤ volMult c := by
  cases c <;> norm_num [volMult]

theorem getD_nonneg_of_all (l : List ℚ) : ∀ (m : Nat), (∀ x ∈ l, 0 ≤ x) → (0:ℚ) ≤ l.getD m 0 := by
  induction l with
  | nil => intro m _; exact le_rfl
  | cons x xs ih =>
    intro m h
    cases m with
    | zero => exact h x (List.mem_cons_self x xs)
    | succ n => exact ih n (fun y hy => h y (List.mem_cons_of_mem x hy))

theorem seasonalAt_nonneg (c : Category) (m : Nat) : 0 ≤ seasonalAt c m := by
  have hall : ∀ x ∈ seasonalPattern c, (0:ℚ) ≤ x := by
    cases c <;> (intro x hx; fin_cases hx <;> norm_num)
  exact getD_nonneg_of_all _ m hall

theorem search_volume_nonneg (env : Env) (keyword : String) :
    0 ≤ (volume_data_of env keyword).search_volume := by
  simp only [volume_data_of, estimate_enhanced_search_volume]
  refine add_nonneg (truncInt_nonneg ?_) (Int.natCast_nonneg _)
  refine mul_nonneg (mul_nonneg (mul_nonneg (mul_nonneg (volBase_nonneg _) (volMult_nonneg _)) ?_) ?_) ?_
  · rw [qMax_eq_max]
    exact le_trans (by norm_num) (le_max_left (0.3 : ℚ) _)
  · split_ifs <;> norm_num
  · split_ifs <;> norm_num

theorem seasonal_factor_nonneg (env : Env) (keyword : String) :
    0 ≤ (volume_data_of env keyword).trend_data.seasonal_factor := by
  simp only [volume_data_of, estimate_enhanced_search_volume, calculate_search_volume_trend]
  exact div_nonneg (seasonalAt_nonneg _ _) (by norm_num)

theorem base_cpc_nonneg (env : Env) (keyword : String) : 0 ≤ base_cpc_of env keyword := by
  unfold base_cpc_of
  have hcs0 : 0 ≤ (competition_data_of env keyword).competition_score :=
    comp_cs_nonneg (env.hash keyword) (env.hash (keyword ++ ("ads"))) keyword
  have hc0 : 0 ≤ cpcMin (categorize_keyword keyword)
      + (cpcMax (categorize_keyword keyword) - cpcMin (categorize_keyword keyword))
        * (competition_data_of env keyword).competition_score := by
    have h1 := cpcMin_nonneg (categorize_keyword keyword)
    have h2 := cpcMin_le_cpcMax (categorize_keyword keyword)
    have h3 := mul_nonneg (by linarith : (0:ℚ) ≤ cpcMax (categorize_keyword keyword) - cpcMin (categorize_keyword keyword)) hcs0
    linarith
  have hvm : 0 ≤ 1 + qMin 0.3 (((volume_data_of env keyword).search_volume : ℚ) / 10000 * 0.1) := by
    have hv : (0:ℚ) ≤ ((volume_data_of env keyword).search_volume : ℚ) := by
      exact_mod_cast search_volume_nonneg env keyword
    have hprod : (0:ℚ) ≤ ((volume_data_of env keyword).search_volume : ℚ) / 10000 * 0.1 :=
      mul_nonneg (div_nonneg hv (by norm_num)) (by norm_num)
    unfold qMin
    split_ifs
    · linarith
    · norm_num
  have htm : 0 ≤ 1 + ((volume_data_of env keyword).trend_data.seasonal_factor - 1) * 0.1 := by
    have hsf := seasonal_factor_nonneg env keyword
    nlinarith
  exact mul_nonneg (mul_nonneg hc0 hvm) htm

/-- C1: for every keyword, the enhanced score record has bids equal to the
estimated CPC times 0.8, 1.1 and 1.4 each rounded to 2 decimals, ordered
conservative at most optimal at most aggressive, and the ordering also
holds for the suggested bids of the fallback record. -/
theorem claim_C1 :
    (∀ (env : Env) (keyword : String),
        (predict_optimal_bid_enhanced env keyword).suggested_bids.conservative
            = round2 ((predict_optimal_bid_enhanced env keyword).estimated_cpc * 0.8)
        ∧ (predict_optimal_bid_enhanced env keyword).suggested_bids.optimal
            = round2 ((predict_optimal_bid_enhanced env keyword).estimated_cpc * 1.1)
        ∧ (predict_optimal_bid_enhanced env keyword).suggested_bids.aggressive
            = round2 ((predict_optimal_bid_enhanced env keyword).estimated_cpc * 1.4)
        ∧ (predict_optimal_bid_enhanced env keyword).suggested_bids.conservative
            ≤ (predict_optimal_bid_enhanced env keyword).suggested_bids.optimal
        ∧ (predict_optimal_bid_enhanced env keyword).suggested_bids.optimal
            ≤ (predict_optimal_bid_enhanced env keyword).suggested_bids.aggressive)
    ∧ (∀ (h : ℕ) (keyword : String),
        (get_basic_keyword_data h keyword).suggested_bids.conservative
            ≤ (get_basic_keyword_data h keyword).suggested_bids.optimal
        ∧ (get_basic_keyword_data h keyword).suggested_bids.optimal
            ≤ (get_basic_keyword_data h keyword).suggested_bids.aggressive) := by
  constructor
  · intro env keyword
    have hcpc : 0 ≤ estimated_cpc_of env keyword := round2_nonneg (base_cpc_nonneg env keyword)
    refine ⟨rfl, rfl, rfl, ?_, ?_⟩
    · show round2 (estimated_cpc_of env keyword * 0.8) ≤ round2 (estimated_cpc_of env keyword * 1.1)
      exact round2_mono (by linarith)
    · show round2 (estimated_cpc_of env keyword * 1.1) ≤ round2 (estimated_cpc_of env keyword * 1.4)
      exact round2_mono (by linarith)
  · intro h keyword
    have ht : (0:ℚ) ≤ ((h % 15 : ℕ) : ℚ) := Nat.cast_nonneg _
    constructor
    · show round2 (8 + (h % 15 : ℕ) * 0.8) ≤ round2 (8 + (h % 15 : ℕ) * 1.1)
      exact round2_mono (by linarith)
    · show round2 (8 + (h % 15 : ℕ) * 1.1) ≤ round2 (8 + (h % 15 : ℕ) * 1.4)
      exact round2_mono (by linarith)

/-- C6 counterexample: for the non-empty one-word keyword phone, the
word-count-based length sub-factor of calculate_competition_analysis is
1.1, so it does not lie in the unit interval as the claim states. -/
theorem claim_C6_counterexample :
    ¬ ((calculate_competition_analysis 0 0 ("phone")).length ≤ 1) := by
  have hw : wordCount ("phone") = 1 := by decide
  show ¬ (qMax 0 (1 - ((wordCount ("phone") : ℚ) - 2) * 0.1) ≤ 1)
  rw [hw, qMax_eq_max]
  norm_num [max_def]

/-- C6 amended: every competition sub-factor is nonnegative; the
genericity, brand and intent sub-factors lie in the unit interval, and the
length sub-factor is at most 1.2 and lies in the unit interval exactly
when the keyword has at least two words: it equals 1.1 for a one-word
keyword and 1.2 for a zero-word keyword. The capped mean gives a
competition score in the unit interval, and the competition level is low
exactly below 0.4, medium exactly in the interval from 0.4 up to but
excluding 0.7, and high exactly from 0.7 on. -/
theorem claim_C6_amended : ∀ (h ha : ℕ) (keyword : String),
    0 ≤ (calculate_competition_analysis h ha keyword).length
    ∧ (calculate_competition_analysis h ha keyword).length ≤ 1.2
    ∧ ((calculate_competition_analysis h ha keyword).length ≤ 1 ↔ 2 ≤ wordCount keyword)
    ∧ (wordCount keyword = 1 → (calculate_competition_analysis h ha keyword).length = 1.1)
    ∧ (wordCount keyword = 0 → (calculate_competition_analysis h ha keyword).length = 1.2)
    ∧ 0 ≤ (calculate_competition_analysis h ha keyword).generic
    ∧ (calculate_competition_analysis h ha keyword).generic ≤ 1
    ∧ 0 ≤ (calculate_competition_analysis h ha keyword).brand
    ∧ (calculate_competition_analysis h ha keyword).brand ≤ 1
    ∧ 0 ≤ (calculate_competition_analysis h ha keyword).intent
    ∧ (calculate_competition_analysis h ha keyword).intent ≤ 1
    ∧ 0 ≤ (calculate_competition_analysis h ha keyword).competition_score
    ∧ (calculate_competition_analysis h ha keyword).competition_score ≤ 1
    ∧ ((calculate_competition_analysis h ha keyword).competition_level = "low"
        ↔ (calculate_competition_analysis h ha keyword).competition_score < 0.4)
    ∧ ((calculate_competition_analysis h ha keyword).competition_level = "medium"
        ↔ (0.4 ≤ (calculate_competition_analysis h ha keyword).competition_score
            ∧ (calculate_competition_analysis h ha keyword).competition_score < 0.7))
    ∧ ((calculate_competition_analysis h ha keyword).competition_level = "high"
        ↔ 0.7 ≤ (calculate_competition_analysis h ha keyword).competition_score) := by
  intro h ha keyword
  have hlow_ne_med : ("low" : String) ≠ "medium" := by decide
  have hlow_ne_high : ("low" : String) ≠ "high" := by decide
  have hmed_ne_high : ("medium" : String) ≠ "high" := by decide
  have heq1 : wordCount keyword = 1 → (calculate_competition_analysis h ha keyword).length = 1.1 := by
    intro hw
    show qMax 0 (1 - ((wordCount keyword : ℚ) - 2) * 0.1) = 1.1
    rw [hw]
    unfold qMax
    rw [if_pos (by norm_num)]
    norm_num
  have heq0 : wordCount keyword = 0 → (calculate_competition_analysis h ha keyword).length = 1.2 := by
    intro hw
    show qMax 0 (1 - ((wordCount keyword : ℚ) - 2) * 0.1) = 1.2
    rw [hw]
    unfold qMax
    rw [if_pos (by norm_num)]
    norm_num
  have himp : 2 ≤ wordCount keyword → (calculate_competition_analysis h ha keyword).length ≤ 1 := by
    intro h2
    show qMax 0 (1 - ((wordCount keyword : ℚ) - 2) * 0.1) ≤ 1
    rw [qMax_eq_max]
    apply max_le (by norm_num)
    have hc : (2:ℚ) ≤ (wordCount keyword : ℚ) := by exact_mod_cast h2
    nlinarith
  have hiff : (calculate_competition_analysis h ha keyword).length ≤ 1 ↔ 2 ≤ wordCount keyword := by
    constructor
    · intro hle
      by_contra hlt
      have hcase : wordCount keyword = 0 ∨ wordCount keyword = 1 := by omega
      rcases hcase with hw | hw
      · rw [heq0 hw] at hle
        norm_num at hle
      · rw [heq1 hw] at hle
        norm_num at hle
    · exact himp
  refine ⟨?_, ?_, hiff, heq1, heq0, ?_, ?_, ?_, ?_, ?_, ?_, comp_cs_nonneg h ha keyword, comp_cs_le_one h ha keyword, ?_, ?_, ?_⟩
  · show 0 ≤ qMax 0 (1 - ((wordCount keyword : ℚ) - 2) * 0.1)
    rw [qMax_eq_max]
    exact le_max_left _ _
  · show qMax 0 (1 - ((wordCount keyword : ℚ) - 2) * 0.1) ≤ 1.2
    rw [qMax_eq_max]
    apply max_le (by norm_num)
    have : (0:ℚ) ≤ (wordCount keyword : ℚ) := Nat.cast_nonneg _
    linarith
  · show 0 ≤ (if wordCount keyword ≤ 2 then (0.8:ℚ) else 0.4)
    split_ifs <;> norm_num
  · show (if wordCount keyword ≤ 2 then (0.8:ℚ) else 0.4) ≤ 1
    split_ifs <;> norm_num
  · show 0 ≤ (if containsAny (pyLower keyword) brandIndicators then (0.6:ℚ) else 0.3)
    split_ifs <;> norm_num
  · show (if containsAny (pyLower keyword) brandIndicators then (0.6:ℚ) else 0.3) ≤ 1
    split_ifs <;> norm_num
  · show 0 ≤ (if containsAny (pyLower keyword) highIntentWords then (0.7:ℚ) else 0.4)
    split_ifs <;> norm_num
  · show (if containsAny (pyLower keyword) highIntentWords then (0.7:ℚ) else 0.4) ≤ 1
    split_ifs <;> norm_num
  · show (if (calculate_competition_analysis h ha keyword).competition_score < 0.4 then "low"
        else if (calculate_competition_analysis h ha keyword).competition_score < 0.7 then "medium"
        else "high") = "low"
      ↔ (calculate_competition_analysis h ha keyword).competition_score < 0.4
    split_ifs with h4 h7
    · exact iff_of_true rfl h4
    · exact iff_of_false (fun heq => hlow_ne_med heq.symm) h4
    · exact iff_of_false (fun heq => hlow_ne_high heq.symm) h4
  · show (if (calculate_competition_analysis h ha keyword).competition_score < 0.4 then "low"
        else if (calculate_competition_analysis h ha keyword).competition_score < 0.7 then "medium"
        else "high") = "medium"
      ↔ (0.4 ≤ (calculate_competition_analysis h ha keyword).competition_score
          ∧ (calculate_competition_analysis h ha keyword).competition_score < 0.7)
    split_ifs with h4 h7
    · exact iff_of_false hlow_ne_med (fun hc => by linarith [hc.1])
    · exact iff_of_true rfl ⟨not_lt.mp h4, h7⟩
    · exact iff_of_false (fun heq => hmed_ne_high heq.symm) (fun hc => h7 hc.2)
  · show (if (calculate_competition_analysis h ha keyword).competition_score < 0.4 then "low"
        else if (calculate_competition_analysis h ha keyword).competition_score < 0.7 then "medium"
        else "high") = "high"
      ↔ 0.7 ≤ (calculate_competition_analysis h ha keyword).competition_score
    split_ifs with h4 h7
    · exact iff_of_false hlow_ne_high (fun hge => by linarith)
    · exact iff_of_false hmed_ne_high (fun hge => by linarith)
    · exact iff_of_true rfl (not_lt.mp h7)

/-- C6 witness: the amended theorem instantiated at a concrete two-word
keyword, whose length factor the iff places in the unit interval, and at
the one-word keyword phone, whose length factor it pins at 1.1; both
word-count hypotheses are discharged by evaluation. -/
theorem claim_C6_witness :
    (calculate_competition_analysis 0 0 ("mobile phone")).length ≤ 1
    ∧ (calculate_competition_analysis 0 0 ("phone")).length = 1.1 :=
  ⟨(claim_C6_amended 0 0 ("mobile phone")).2.2.1.mpr (by decide),
    (claim_C6_amended 0 0 ("phone")).2.2.2.1 (by decide)⟩

theorem bulkLoop_length (h : String → ℕ) :
    ∀ (kws : List String) (results : List (Except Unit KeywordDataRecord)),
      results.length = kws.length → (bulkLoop h kws results).length = kws.length := by
  intro kws
  induction kws with
  | nil => intro results _; rfl
  | cons kw rest ih =>
    intro results hr
    cases results with
    | nil => simp at hr
    | cons r rs =>
      simp only [bulkLoop, List.length_cons]
      rw [ih rs (by simpa using hr)]

theorem bulkLoop_getD (h : String → ℕ) :
    ∀ (kws : List String) (results : List (Except Unit KeywordDataRecord)) (i : ℕ),
      results.length = kws.length → i < kws.length →
      (bulkLoop h kws results).getD i dummyRec
        = (match results.getD i (Except.error ()) with
           | Except.error _ => get_basic_keyword_data (h (kws.getD i (""))) (kws.getD i (""))
           | Except.ok r => r) := by
  intro kws
  induction kws with
  | nil => intro results i _ hi; simp at hi
  | cons kw rest ih =>
    intro results i hr hi
    cases results with
    | nil => simp at hr
    | cons r rs =>
      cases i with
      | zero => cases r <;> rfl
      | succ n =>
        have hr' : rs.length = rest.length := by simpa using hr
        have hi' : n < rest.length := by simpa using Nat.lt_of_succ_lt_succ hi
        simpa only [bulkLoop, List.getD_cons_succ] using ih rs n hr' hi'

/-- C4: for every non-empty keyword list, the bulk analysis returns one
record per keyword in input order: with gather outcomes listed in task
order, slot i holds the scored record of keyword i, or the fallback record
of keyword i tagged Fallback Algorithm when that scoring task raised. -/
theorem claim_C4 : ∀ (h : String → ℕ) (keywords : List String)
    (results : List (Except Unit KeywordDataRecord)),
    keywords ≠ [] → results.length = keywords.length →
    (get_bulk_keyword_analysis h keywords results).length = keywords.length
    ∧ (∀ i, i < keywords.length →
        (get_bulk_keyword_analysis h keywords results).getD i dummyRec
          = (match results.getD i (Except.error ()) with
             | Except.error _ => get_basic_keyword_data (h (keywords.getD i ("")))
                 (keywords.getD i (""))
             | Except.ok r => r))
    ∧ (∀ kw, (get_basic_keyword_data (h kw) kw).data_source = ("Fallback Algorithm")) := by
  intro h keywords results hne hlen
  have hcons : keywords.isEmpty = false := by
    cases keywords with
    | nil => exact absurd rfl hne
    | cons a b => rfl
  unfold get_bulk_keyword_analysis
  rw [hcons]
  simp only [Bool.false_eq_true, if_false]
  exact ⟨bulkLoop_length h keywords results hlen,
    fun i hi => bulkLoop_getD h keywords results i hlen hi,
    fun kw => rfl⟩

/-- C4 witness: the theorem instantiated on a concrete two-keyword batch in
which the second scoring task raised, with both hypotheses discharged by
evaluation. -/
theorem claim_C4_witness :
    (get_bulk_keyword_analysis h0 (["phone", "laptop"]) [Except.ok dummyRec, Except.error ()]).length = 2
    ∧ (get_bulk_keyword_analysis h0 (["phone", "laptop"]) [Except.ok dummyRec, Except.error ()]).getD 1 dummyRec
        = get_basic_keyword_data (h0 ("laptop")) ("laptop")
    ∧ (get_basic_keyword_data (h0 ("laptop")) ("laptop")).data_source = ("Fallback Algorithm") := by
  have h := claim_C4 h0 (["phone", "laptop"]) [Except.ok dummyRec, Except.error ()]
    (by decide) (by decide)
  exact ⟨h.1, h.2.1 1 (by decide), h.2.2 ("laptop")⟩

theorem decodeStrings_eq_none_iff : ∀ (items : List JVal),
    decodeStrings items = none ↔ ∃ v ∈ items, v.isStr = false := by
  intro items
  induction items with
  | nil => simp [decodeStrings]
  | cons v rest ih =>
    cases v with
    | str s =>
      simp only [decodeStrings]
      constructor
      · intro h
        cases hd : decodeStrings rest with
        | none =>
          obtain ⟨w, hw, hwf⟩ := ih.mp hd
          exact ⟨w, List.mem_cons_of_mem _ hw, hwf⟩
        | some ss => rw [hd] at h; simp at h
      · rintro ⟨w, hw, hwf⟩
        rcases List.mem_cons.mp hw with rfl | hw'
        · simp [JVal.isStr] at hwf
        · rw [ih.mpr ⟨w, hw', hwf⟩]; rfl
    | nonstr =>
      simp only [decodeStrings]
      constructor
      · intro _; exact ⟨JVal.nonstr, List.mem_cons_self _ _, rfl⟩
      · intro _; trivial

theorem decodeStrings_some_length : ∀ (items : List JVal) (ss : List String),
    decodeStrings items = some ss → ss.length = items.length := by
  intro items
  induction items with
  | nil =>
    intro ss h
    have : ([] : List String) = ss := Option.some.inj h
    rw [← this]
    rfl
  | cons v rest ih =>
    intro ss h
    cases v with
    | str s =>
      simp only [decodeStrings] at h
      cases hd : decodeStrings rest with
      | none => rw [hd] at h; simp at h
      | some ss' =>
        rw [hd] at h
        have : s :: ss' = ss := Option.some.inj h
        rw [← this, List.length_cons, List.length_cons, ih ss' hd]
    | nonstr => simp [decodeStrings] at h

/-- C3 amended: the bulk analysis operation fails exactly when the request
is empty, longer than 100 items, or contains a non-string element; a blank
string element is not rejected but scored like any keyword. When it fails,
it fails before scoring: the error does not depend on the scoring
outcomes. -/
theorem claim_C3_amended : ∀ (h : String → ℕ) (items : List JVal)
    (results : List (Except Unit KeywordDataRecord)),
    ((∃ e, bulkAnalyzeOp h items results = Except.error e)
      ↔ (items = [] ∨ 100 < items.length ∨ ∃ v ∈ items, v.isStr = false))
    ∧ ((∃ e, bulkAnalyzeOp h items results = Except.error e) →
        ∀ results2, bulkAnalyzeOp h items results = bulkAnalyzeOp h items results2) := by
  intro h items results
  have hgen : ∀ (rs : List (Except Unit KeywordDataRecord)), bulkAnalyzeOp h items rs
      = (match validateBulkRequest items with
         | Except.error e => Except.error e
         | Except.ok kws => Except.ok (get_bulk_keyword_analysis h kws rs)) := fun rs => rfl
  cases hd : decodeStrings items with
  | none =>
    have hval : validateBulkRequest items = Except.error ("type_error") := by
      unfold validateBulkRequest
      rw [hd]
    have hop : ∀ rs, bulkAnalyzeOp h items rs = Except.error ("type_error") := fun rs => by
      rw [hgen rs, hval]
    refine ⟨⟨fun _ => Or.inr (Or.inr ((decodeStrings_eq_none_iff items).mp hd)),
      fun _ => ⟨("type_error"), hop results⟩⟩, fun _ results2 => by rw [hop results, hop results2]⟩
  | some ss =>
    have hlen := decodeStrings_some_length items ss hd
    have hval : validateBulkRequest items
        = (if ss.length < 1 then Except.error ("min_items")
           else if 100 < ss.length then Except.error ("max_items")
           else Except.ok ss) := by
      unfold validateBulkRequest
      rw [hd]
    by_cases h1 : ss.length < 1
    · have hitems : items = [] := List.length_eq_zero.mp (by omega)
      have hop : ∀ rs, bulkAnalyzeOp h items rs = Except.error ("min_items") := fun rs => by
        rw [hgen rs, hval, if_pos h1]
      exact ⟨⟨fun _ => Or.inl hitems, fun _ => ⟨("min_items"), hop results⟩⟩,
        fun _ results2 => by rw [hop results, hop results2]⟩
    · by_cases h2 : 100 < ss.length
      · have hop : ∀ rs, bulkAnalyzeOp h items rs = Except.error ("max_items") := fun rs => by
          rw [hgen rs, hval, if_neg h1, if_pos h2]
        exact ⟨⟨fun _ => Or.inr (Or.inl (by omega)), fun _ => ⟨("max_items"), hop results⟩⟩,
          fun _ results2 => by rw [hop results, hop results2]⟩
      · have hop : ∀ rs, bulkAnalyzeOp h items rs
            = Except.ok (get_bulk_keyword_analysis h ss rs) := fun rs => by
          rw [hgen rs, hval, if_neg h1, if_neg h2]
        constructor
        · constructor
          · rintro ⟨e, he⟩
            rw [hop results] at he
            simp at he
          · intro hbad
            rcases hbad with hitems | hlarge | ⟨v, hv, hvf⟩
            · subst hitems
              have : some ([] : List String) = some ss := hd
              have hss : ([] : List String) = ss := Option.some.inj this
              rw [← hss] at h1
              simp at h1
            · omega
            · have hnone := (decodeStrings_eq_none_iff items).mpr ⟨v, hv, hvf⟩
              rw [hd] at hnone
              simp at hnone
        · rintro ⟨e, he⟩ results2
          rw [hop results] at he
          simp at he

/-- C3 counterexample: the request with keywords phone, blank, laptop
passes validation and the operation returns a full result list, although
the claim states a blank element must make the operation fail. -/
theorem claim_C3_counterexample :
    validateBulkRequest blankItems = Except.ok (["phone", "", "laptop"])
    ∧ bulkAnalyzeOp h0 blankItems errResults
        = Except.ok (get_bulk_keyword_analysis h0 (["phone", "", "laptop"]) errResults)
    ∧ (get_bulk_keyword_analysis h0 (["phone", "", "laptop"]) errResults).length = 3 :=
  ⟨rfl, rfl, rfl⟩

/-- C3 witness: the amended theorem applied to the empty request, whose
validation error is independent of the scoring outcomes. -/
theorem claim_C3_witness :
    bulkAnalyzeOp h0 [] [] = bulkAnalyzeOp h0 [] [Except.error ()] :=
  (claim_C3_amended h0 [] []).2 ⟨("min_items"), rfl⟩ [Except.error ()]

theorem dropWhile_dropWhile (p : Char → Bool) (l : List Char) :
    (l.dropWhile p).dropWhile p = l.dropWhile p := by
  induction l with
  | nil => rfl
  | cons c t ih =>
    by_cases h : p c
    · simp only [List.dropWhile_cons, h, if_true]
      exact ih
    · simp [List.dropWhile_cons, h]

theorem dropWhile_append_self (p : Char → Bool) :
    ∀ (l t : List Char), (l ++ t).dropWhile p = l ++ t → l.dropWhile p = l := by
  intro l t h
  cases l with
  | nil => rfl
  | cons c l' =>
    by_cases hc : p c
    · exfalso
      rw [List.cons_append, List.dropWhile_cons, if_pos hc] at h
      have hlen := congrArg List.length h
      have hle : ((l' ++ t).dropWhile p).length ≤ (l' ++ t).length :=
        (List.dropWhile_sublist _).length_le
      simp [List.length_append] at hlen hle
      omega
    · rw [List.dropWhile_cons, if_neg hc]

theorem dropWhile_suffix_decomp (p : Char → Bool) :
    ∀ (l : List Char), ∃ s, s ++ l.dropWhile p = l := by
  intro l
  induction l with
  | nil => exact ⟨[], rfl⟩
  | cons c t ih =>
    by_cases hc : p c
    · obtain ⟨s, hs⟩ := ih
      exact ⟨c :: s, by simp only [List.dropWhile_cons, hc, if_true, List.cons_append, hs]⟩
    · exact ⟨[], by simp [List.dropWhile_cons, hc]⟩

theorem stripChars_idem (l : List Char) : stripChars (stripChars l) = stripChars l := by
  have hAfix : (l.dropWhile isWS).dropWhile isWS = l.dropWhile isWS := dropWhile_dropWhile isWS l
  have hrev : (stripChars l).reverse = (l.dropWhile isWS).reverse.dropWhile isWS := by
    unfold stripChars
    rw [List.reverse_reverse]
  have hrevfix : ((stripChars l).reverse).dropWhile isWS = (stripChars l).reverse := by
    rw [hrev]
    exact dropWhile_dropWhile _ _
  have hyfix : (stripChars l).dropWhile isWS = stripChars l := by
    obtain ⟨s, hs⟩ := dropWhile_suffix_decomp isWS (l.dropWhile isWS).reverse
    rw [← hrev] at hs
    have h1 := congrArg List.reverse hs
    simp only [List.reverse_append, List.reverse_reverse] at h1
    exact dropWhile_append_self isWS (stripChars l) s.reverse (by rw [h1]; exact hAfix)
  show (((stripChars l).dropWhile isWS).reverse.dropWhile isWS).reverse = stripChars l
  rw [hyfix, hrevfix, List.reverse_reverse]

theorem pyStrip_idem (s : String) : pyStrip (pyStrip s) = pyStrip s := by
  show String.mk (stripChars (stripChars s.data)) = String.mk (stripChars s.data)
  rw [stripChars_idem]

theorem pyLower_length (s : String) : (pyLower s).length = s.length := by
  show (s.data.map Char.toLower).length = s.data.length
  exact List.length_map _ _

theorem dedupeKeep_sublist : ∀ (l seen : List String),
    List.Sublist (dedupeKeep l seen) (l.map pyStrip) := by
  intro l
  induction l with
  | nil => intro seen; simp [dedupeKeep]
  | cons s rest ih =>
    intro seen
    simp only [dedupeKeep, List.map_cons]
    split_ifs with hcond
    · exact List.Sublist.cons₂ _ (ih _)
    · exact List.Sublist.cons _ (ih _)

theorem dedupeKeep_spec : ∀ (l seen : List String),
    (∀ x ∈ dedupeKeep l seen,
      pyLower (pyStrip x) ∉ seen ∧ 2 < (pyStrip x).length ∧ pyStrip x = x)
    ∧ List.Pairwise (fun a b => pyLower (pyStrip a) ≠ pyLower (pyStrip b)) (dedupeKeep l seen) := by
  intro l
  induction l with
  | nil =>
    intro seen
    constructor
    · intro x hx
      simp [dedupeKeep] at hx
    · simp [dedupeKeep]
  | cons s rest ih =>
    intro seen
    simp only [dedupeKeep]
    split_ifs with hcond
    · obtain ⟨hc1, hc2, hc3⟩ := hcond
      have hmem := (ih (pyLower (pyStrip s) :: seen)).1
      have hpw := (ih (pyLower (pyStrip s) :: seen)).2
      constructor
      · intro x hx
        rcases List.mem_cons.mp hx with rfl | hx'
        · refine ⟨?_, ?_, pyStrip_idem s⟩
          · rw [pyStrip_idem]
            exact hc2
          · rw [pyStrip_idem]
            rw [pyLower_length] at hc3
            exact hc3
        · obtain ⟨hn, hl, hid⟩ := hmem x hx'
          exact ⟨fun hmem2 => hn (List.mem_cons_of_mem _ hmem2), hl, hid⟩
      · refine List.Pairwise.cons ?_ hpw
        intro b hb
        obtain ⟨hnb, _, _⟩ := hmem b hb
        rw [pyStrip_idem]
        intro heq
        exact hnb (heq ▸ List.mem_cons_self _ _)
    · exact ih seen

/-- C7: for every autocomplete result, generated-variant oracle and limit
at least 1, the suggestion list has at most limit elements, no two
elements equal after trimming and lowercasing, no element of trimmed
length at most 2, and elements keep their first-seen order: the output is
a sublist of the stripped assembled suggestion list. -/
theorem claim_C7 : ∀ (amazon expanded : List String) (limit : ℕ), 1 ≤ limit →
    (get_keyword_suggestions amazon expanded limit).length ≤ limit
    ∧ List.Pairwise (fun a b => pyLower (pyStrip a) ≠ pyLower (pyStrip b))
        (get_keyword_suggestions amazon expanded limit)
    ∧ (∀ x ∈ get_keyword_suggestions amazon expanded limit, 2 < (pyStrip x).length)
    ∧ List.Sublist (get_keyword_suggestions amazon expanded limit)
        ((collectSuggestions amazon expanded limit).map pyStrip) := by
  intro amazon expanded limit _
  unfold get_keyword_suggestions
  refine ⟨List.length_take_le _ _, ?_, ?_, ?_⟩
  · exact List.Pairwise.sublist (List.take_sublist _ _) (dedupeKeep_spec _ []).2
  · intro x hx
    have hx' : x ∈ dedupeKeep (collectSuggestions amazon expanded limit) [] :=
      (List.take_sublist _ _).mem hx
    exact ((dedupeKeep_spec _ []).1 x hx').2.1
  · exact (List.take_sublist _ _).trans (dedupeKeep_sublist _ _)

/-- C7 witness: the theorem instantiated on a concrete seed expansion with
limit 2, the limit hypothesis discharged by evaluation. -/
theorem claim_C7_witness :
    (get_keyword_suggestions (["phone "]) (["  Phone", "laptop deal", "tv"]) 2).length ≤ 2
    ∧ List.Pairwise (fun a b => pyLower (pyStrip a) ≠ pyLower (pyStrip b))
        (get_keyword_suggestions (["phone "]) (["  Phone", "laptop deal", "tv"]) 2)
    ∧ (∀ x ∈ get_keyword_suggestions (["phone "]) (["  Phone", "laptop deal", "tv"]) 2,
        2 < (pyStrip x).length)
    ∧ List.Sublist (get_keyword_suggestions (["phone "]) (["  Phone", "laptop deal", "tv"]) 2)
        ((collectSuggestions (["phone "]) (["  Phone", "laptop deal", "tv"]) 2).map pyStrip) :=
  claim_C7 (["phone "]) (["  Phone", "laptop deal", "tv"]) 2 (by decide)

/-- C8: every failing fetch outcome is absorbed: the autocomplete helper
returns the empty list, and the suggestion operation still returns a plain
list computed from the generated variants alone; totality of the embedded
operation mirrors the catch-all exception handlers of the source, so no
fetch failure escapes as an exception. -/
theorem claim_C8 : ∀ (r : FetchOutcome), r.isFailure = true →
    get_amazon_autocomplete r = []
    ∧ ∀ (expanded : List String) (limit : ℕ),
        get_keyword_suggestions_op r expanded limit
          = (dedupeKeep (if 0 < limit then expanded else []) []).take limit := by
  intro r hr
  have hempty : get_amazon_autocomplete r = [] := by
    cases r with
    | response s body =>
      cases body with
      | ok payload =>
        have hs : s ≠ 200 := by simpa [FetchOutcome.isFailure] using hr
        simp only [get_amazon_autocomplete]
        rw [if_neg hs]
      | error e => rfl
    | clientError => rfl
    | otherFailure => rfl
  refine ⟨hempty, fun expanded limit => ?_⟩
  unfold get_keyword_suggestions_op get_keyword_suggestions collectSuggestions
  rw [hempty]
  simp only [List.nil_append, List.length_nil]

/-- C8 witness: the theorem instantiated at a network failure, the failure
hypothesis discharged by evaluation. -/
theorem claim_C8_witness :
    get_amazon_autocomplete FetchOutcome.clientError = []
    ∧ get_keyword_suggestions_op FetchOutcome.clientError (["abc", "de"]) 3
        = (dedupeKeep (if 0 < 3 then ["abc", "de"] else []) []).take 3 := by
  have h := claim_C8 FetchOutcome.clientError (by decide)
  exact ⟨h.1, h.2 (["abc", "de"]) 3⟩

theorem rhe_intCast (n : ℤ) : rhe ((n : ℚ)) = n := by
  rw [rhe_eq, Int.floor_intCast, sub_self]
  rw [if_pos (by norm_num : (0:ℚ) < 1/2)]

theorem round2_intCast (n : ℤ) : round2 ((n : ℚ)) = n := by
  unfold round2
  have h100 : ((n : ℚ)) * 100 = ((n * 100 : ℤ) : ℚ) := by push_cast; ring
  rw [h100, rhe_intCast]
  push_cast
  field_simp

/-- C2: the scoring call is not deterministic. The two environments share
the same abs-hash oracle and month (the same process and constant tables)
and differ only in the ABA click draw of the random module, yet the two
records differ: the aba_data block is drawn fresh on every call, so two
calls with the same keyword do not return identical records. -/
theorem claim_C2_code_bug :
    envA.hash = envB.hash ∧ envA.month = envB.month
    ∧ predict_optimal_bid_enhanced envA ("phone") ≠ predict_optimal_bid_enhanced envB ("phone") := by
  refine ⟨rfl, rfl, fun hcontra => ?_⟩
  have hfield : (predict_optimal_bid_enhanced envA ("phone")).aba_click_share
      = (predict_optimal_bid_enhanced envB ("phone")).aba_click_share := by rw [hcontra]
  have hA : (predict_optimal_bid_enhanced envA ("phone")).aba_click_share = round2 (1 : ℚ) := rfl
  have hB : (predict_optimal_bid_enhanced envB ("phone")).aba_click_share = round2 (2 : ℚ) := rfl
  have h1 : round2 ((1 : ℚ)) = 1 := by
    have := round2_intCast 1
    simpa using this
  have h2 : round2 ((2 : ℚ)) = 2 := by
    have := round2_intCast 2
    simpa using this
  rw [hA, hB, h1, h2] at hfield
  norm_num at hfield
